import Mathlib

/-!
Verification of the read-alignment and coverage core of `anvio`
(`anvio/sequence.py`): the `Read` class (cigar-based trimming, splicing and
block extraction), the coverage summary statistics (`Coverage.process_c`) and
the MAD-based outlier classifier (`get_list_of_outliers`).

The Python code is embedded shallowly: numpy arrays become `List`s, reference
coordinates and trim amounts become `Int` (Python integers), cigar operation
codes and lengths become `Nat`, depth values become `Int`, and floating-point
statistics become `ℚ` (every operation appearing in the claims is exact in
binary floating point or is compared through exact rational arithmetic).
Raising an exception becomes returning `Except.error`.
-/

/-- Modelled from the spec: `anvio.constants.cigar_consumption` is not under
`src/` (only `anvio/sequence.py` is).  The spec describes it as the Operation
Table, "mapping from operation code (small integer enum) to a pair of booleans
`(consumes_query, consumes_reference)`", which is the standard SAM/BAM cigar
consumption table for codes 0-8 (M, I, D, N, S, H, P, =, X).  Component `.1`
is `consumes_query` (called `consumes_read` in the code) and `.2` is
`consumes_reference`, matching `cigar_consumption[op, 0]` and
`cigar_consumption[op, 1]` in the source. -/
def cigar_consumption (op : Nat) : Bool × Bool :=
  match op with
  | 0 => (true, true)    -- M  (BAM_CMATCH)
  | 1 => (true, false)   -- I  (BAM_CINS)
  | 2 => (false, true)   -- D  (BAM_CDEL)
  | 3 => (false, true)   -- N  (BAM_CREF_SKIP)
  | 4 => (true, false)   -- S  (BAM_CSOFT_CLIP)
  | 5 => (false, false)  -- H  (BAM_CHARD_CLIP)
  | 6 => (false, false)  -- P  (BAM_CPAD)
  | 7 => (true, true)    -- =  (BAM_CEQUAL)
  | 8 => (true, true)    -- X  (BAM_CDIFF)
  | _ => (false, false)

/-- `anvio.sequence.Read`: the attributes set in `Read.__init__` (lines
132-136).  `cigartuples` is the Nx2 array of `(operation, length)` rows,
`query_sequence` and `reference_sequence` are uint8 base arrays, and
`reference_start`/`reference_end` are the half-open reference coordinates. -/
structure Read where
  cigartuples : List (Nat × Nat)
  query_sequence : List Nat
  reference_sequence : List Nat
  reference_start : Int
  reference_end : Int
deriving DecidableEq, Repr

/-- The read's reference span `reference_end - reference_start`, written
inline in `Read.trim` (lines 330-332). -/
def Read.reference_span (r : Read) : Int :=
  r.reference_end - r.reference_start

/-- Loop body of `Read.get_blocks` (lines 244-272).  The Python truthiness
test `if block_length:` is `block_length ≠ 0`. -/
def getBlocksAux (ops : List (Nat × Nat)) (block_start block_length : Int)
    (blocks : List (Int × Int)) : List (Int × Int) :=
  match ops with
  | [] =>
    if block_length ≠ 0 then blocks ++ [(block_start, block_start + block_length)] else blocks
  | (op, len) :: rest =>
    let cons := cigar_consumption op
    if cons.1 && cons.2 then
      getBlocksAux rest block_start (block_length + len) blocks
    else if cons.1 && !cons.2 then
      let blocks := if block_length ≠ 0 then blocks ++ [(block_start, block_start + block_length)] else blocks
      getBlocksAux rest (block_start + block_length) 0 blocks
    else if !cons.1 && cons.2 then
      let blocks := if block_length ≠ 0 then blocks ++ [(block_start, block_start + block_length)] else blocks
      getBlocksAux rest (block_start + block_length + len) 0 blocks
    else
      getBlocksAux rest block_start block_length blocks

/-- `Read.get_blocks` (lines 236-272): maximal reference intervals covered by
operations consuming both query and reference, mimicking pysam. -/
def Read.get_blocks (r : Read) : List (Int × Int) :=
  getBlocksAux r.cigartuples r.reference_start 0 []

/-- Result of the cigar walk inside `_trim` (lines 653-689): the remaining
rows `cigartuples[count:]` (with the partially-consumed boundary row already
truncated in place) and the two trimmed-position counters. -/
structure TrimWalk where
  ops : List (Nat × Nat)
  refTrimmed : Int
  readTrimmed : Int
deriving DecidableEq, Repr

/-- The loop of `_trim` (lines 653-689).  `terminate` is `terminate_next`;
a `break` is modelled by returning the current row and the untouched rest
(`cigartuples[count:]`).  In the truncation branch the row length becomes
`length - remaining` (line 670). -/
def trimWalk (ops : List (Nat × Nat)) (trim_by refT readT : Int)
    (terminate : Bool) : TrimWalk :=
  match ops with
  | [] => ⟨[], refT, readT⟩
  | (op, len) :: rest =>
    let cons := cigar_consumption op
    if cons.1 && cons.2 then
      if terminate then ⟨(op, len) :: rest, refT, readT⟩
      else
        let remaining : Int := trim_by - refT
        if (len : Int) > remaining then
          ⟨(op, ((len : Int) - remaining).toNat) :: rest, refT + remaining, readT + remaining⟩
        else
          trimWalk rest trim_by (refT + len) (readT + len)
            (terminate || decide (refT + len ≥ trim_by))
    else if cons.2 then
      trimWalk rest trim_by (refT + len) readT
        (terminate || decide (refT + len ≥ trim_by))
    else if cons.1 then
      trimWalk rest trim_by refT (readT + len)
        (terminate || decide (refT ≥ trim_by))
    else
      trimWalk rest trim_by refT readT
        (terminate || decide (refT ≥ trim_by))

/-- Python's `l[:-n]` for `n ≥ 0` (used with the trimmed-position counters in
`_trim`, lines 693-694): for `n = 0` this is `l[:0] = []`, not `l` — the slip
behind the right-trim query wipe-out — and otherwise it keeps the first
`length - n` elements. -/
def pySliceUpToNeg {α : Type} (l : List α) (n : Int) : List α :=
  if n = 0 then [] else l.take (l.length - n.toNat)

/-- `_trim` (lines 648-702).  `side` is `0` for left and `1` for right, as
passed by `Read.trim` (line 365).  Returns
`(cigartuples, query_sequence, reference_sequence, reference_start,
reference_end)`. -/
def pyTrim (cigartuples : List (Nat × Nat)) (query_sequence reference_sequence : List Nat)
    (reference_start reference_end trim_by : Int) (side : Nat) :
    List (Nat × Nat) × List Nat × List Nat × Int × Int :=
  let ops := if side = 1 then cigartuples.reverse else cigartuples
  let w := trimWalk ops trim_by 0 0 false
  if side = 1 then
    (w.ops.reverse,
     pySliceUpToNeg query_sequence w.readTrimmed,
     pySliceUpToNeg reference_sequence w.refTrimmed,
     reference_start,
     reference_end - w.refTrimmed)
  else
    (w.ops,
     query_sequence.drop w.readTrimmed.toNat,
     reference_sequence.drop w.refTrimmed.toNat,
     reference_start + w.refTrimmed,
     reference_end)

/-- The `side` argument of `Read.trim` (a string in Python, `'left'` or
`'right'`). -/
inductive Side where
  | left : Side
  | right : Side
deriving DecidableEq, Repr

/-- `Read.trim` (lines 298-365).  The two `ConfigError` raises become
`Except.error`; the single-operation fast path (lines 334-349) and the
delegation to `_trim` (lines 354-365) are both kept.  In the fast path the
right-hand slices `[:-trim_by]` have `trim_by ≥ 1`, so they are ordinary
`take`s there; `[:-n]` is modelled by `pySliceUpToNeg` throughout. -/
def Read.trimE (r : Read) (trim_by : Int) (side : Side) : Except String Read :=
  if trim_by = 0 then .ok r
  else if trim_by < 0 then
    .error "Read.trim :: Requesting to trim an amount which is negative."
  else if trim_by > r.reference_end - r.reference_start then
    .error "Read.trim :: Requesting to trim an amount that exceeds the alignment range."
  else
    match r.cigartuples with
    | [(op, len)] =>
      match side with
      | .left =>
        .ok ⟨[(op, ((len : Int) - trim_by).toNat)],
             r.query_sequence.drop trim_by.toNat,
             r.reference_sequence.drop trim_by.toNat,
             r.reference_start + trim_by,
             r.reference_end⟩
      | .right =>
        .ok ⟨[(op, ((len : Int) - trim_by).toNat)],
             pySliceUpToNeg r.query_sequence trim_by,
             pySliceUpToNeg r.reference_sequence trim_by,
             r.reference_start,
             r.reference_end - trim_by⟩
    | ops =>
      let t := pyTrim ops r.query_sequence r.reference_sequence
        r.reference_start r.reference_end trim_by (match side with | .left => 0 | .right => 1)
      .ok ⟨t.1, t.2.1, t.2.2.1, t.2.2.2.1, t.2.2.2.2⟩

/-- The state of the instance after calling `Read.trim`: Python `trim`
mutates `self` in place, and both `ConfigError` raises happen before any
attribute is assigned, so on failure the instance keeps its original
fields. -/
def Read.trimState (r : Read) (trim_by : Int) (side : Side) : Read :=
  match r.trimE trim_by side with
  | .ok r' => r'
  | .error _ => r

/-- Exceptions observable from `Read.__getitem__`: the explicit `ValueError`
(line 184) and the `ConfigError`s propagated from `Read.trim`. -/
inductive ReadErr where
  | valueError : String → ReadErr
  | configError : String → ReadErr
deriving DecidableEq, Repr

/-- A Python subscript key as seen by `Read.__getitem__`: either a slice
object (with optional `start`, `stop`, `step`) or any non-slice key. -/
inductive PyKey where
  | slice : Option Int → Option Int → Option Int → PyKey
  | nonSlice : PyKey
deriving DecidableEq, Repr

/-- Whether a key is a basic slice `read[start:stop]` (a slice whose `step`
is `None`) — the only keys `Read.__getitem__` accepts (line 183). -/
def PyKey.isBasicSlice : PyKey → Bool
  | .slice _ _ none => true
  | _ => false

/-- `Read.__getitem__` (lines 139-194).  The key check (lines 183-184) raises
`ValueError` before the deep copy; the copy then gets `trim`med on each side,
and any `ConfigError` raised by `trim` propagates.  The embedding returns the
new object; the original `r` is never modified (the Python works on a
`copy.deepcopy`). -/
def Read.getitem (r : Read) (key : PyKey) : Except ReadErr Read :=
  match key with
  | .nonSlice =>
    .error (.valueError "Read class only supports basic slicing for indexing")
  | .slice kstart kstop kstep =>
    if kstep ≠ none then
      .error (.valueError "Read class only supports basic slicing for indexing")
    else
      let segment := r
      let start := match kstart with | some v => v | none => segment.reference_start
      let stop := match kstop with | some v => v | none => segment.reference_end
      match segment.trimE (start - segment.reference_start) .left with
      | .error e => .error (.configError e)
      | .ok seg2 =>
        match seg2.trimE (seg2.reference_end - stop) .right with
        | .error e => .error (.configError e)
        | .ok seg3 => .ok seg3

/-- Whether an `Except` from `Read.trimE` is an error (a raised
`ConfigError`). -/
def isTrimErr : Except String Read → Bool
  | .error _ => true
  | .ok _ => false

/-- Whether a `Read.getitem` outcome is a raised `ValueError`. -/
def isValueError : Except ReadErr Read → Bool
  | .error (.valueError _) => true
  | _ => false

/-- Whether a `Read.getitem` outcome is a raised `ConfigError`. -/
def isConfigError : Except ReadErr Read → Bool
  | .error (.configError _) => true
  | _ => false

/-- Sum of the lengths of cigar operations that consume the query — the
expected `len(query_sequence)` of a consistent read. -/
def sumQueryLengths (ops : List (Nat × Nat)) : Nat :=
  (ops.filter (fun p => (cigar_consumption p.1).1)).foldr (fun p acc => p.2 + acc) 0

/-- Sum of the lengths of cigar operations that consume the reference — the
expected `len(reference_sequence)` and reference span of a consistent read. -/
def sumRefLengths (ops : List (Nat × Nat)) : Nat :=
  (ops.filter (fun p => (cigar_consumption p.1).2)).foldr (fun p acc => p.2 + acc) 0

/-- The cross-array consistency invariant of the spec (section 3): query and
reference base array lengths match the consuming cigar lengths, and the
coordinate span matches the reference-consuming sum. -/
def Read.consistent (r : Read) : Bool :=
  decide (r.query_sequence.length = sumQueryLengths r.cigartuples) &&
  decide (r.reference_sequence.length = sumRefLengths r.cigartuples) &&
  decide (r.reference_end - r.reference_start = (sumRefLengths r.cigartuples : Int))

/-- An operation row that consumes both query and reference. -/
def opConsumesBoth (p : Nat × Nat) : Bool :=
  (cigar_consumption p.1).1 && (cigar_consumption p.1).2

/-- The operation row at the trimmed end of a read: the first row for a left
trim, the last row for a right trim. -/
def boundaryOp (side : Side) (ops : List (Nat × Nat)) : Option (Nat × Nat) :=
  match side with
  | .left => ops.head?
  | .right => ops.getLast?

/-- Insertion of one value into a nondecreasing list of rationals. -/
def insertSorted (x : ℚ) : List ℚ → List ℚ
  | [] => [x]
  | y :: ys => if x ≤ y then x :: y :: ys else y :: insertSorted x ys

/-- Ascending sort of a list of rationals (Python `sorted` / the sort inside
`np.median`).  Insertion sort is used because the sorted rearrangement of a
list of numbers is unique, so any correct sort yields this list. -/
def pySorted (l : List ℚ) : List ℚ :=
  l.foldr insertSorted []

/-- `np.median` on a 1-D array: middle element of the sorted array for odd
length, average of the two middle elements for even length.  (`np.median` of
an empty array is NaN in Python; the embedding returns 0 there, and every
theorem that relies on the median carries a non-emptiness hypothesis.) -/
def npMedian (l : List ℚ) : ℚ :=
  let s := pySorted l
  if l.length = 0 then 0
  else if l.length % 2 = 1 then s.getD (l.length / 2) 0
  else (s.getD (l.length / 2 - 1) 0 + s.getD (l.length / 2) 0) / 2

/-- `np.mean` on a 1-D array (0 for the empty array, which is NaN in
Python and never reached by the claims). -/
def npMean (l : List ℚ) : ℚ :=
  if l.length = 0 then 0 else l.sum / (l.length : ℚ)

/-- `anvio.sequence.get_list_of_outliers` (lines 527-586) for 1-D input.
`values[:, None]` followed by the per-row Euclidean deviation
`sqrt(sum((v - median)^2))` is `|v - median|` exactly for 1-D input.
`0.6745` is the exact double `6745/10000`.  The Python truthiness tests
`if not median` and `if not median_absolute_deviation` are `= 0` tests (with
`None` for an unsupplied median); `values[0]` on the degenerate branch is the
first element.  With `zeros_are_outliers` the computed mask gets `True`
written at every position whose value is exactly zero (lines 583-586). -/
def get_list_of_outliers (values : List ℚ) (threshold : Option ℚ)
    (zeros_are_outliers : Bool) (median : Option ℚ) : List Bool :=
  let threshold : ℚ := match threshold with | some t => t | none => 3/2
  let median : ℚ := match median with
    | some m => if m = 0 then npMedian values else m
    | none => npMedian values
  let diff := values.map (fun v => |v - median|)
  let median_absolute_deviation := npMedian diff
  if median_absolute_deviation = 0 then
    if values.headD 0 = 0 then List.replicate values.length true
    else List.replicate values.length false
  else
    let non_outliers := diff.map (fun d =>
      decide ((6745 : ℚ) / 10000 * d / median_absolute_deviation > threshold))
    if !zeros_are_outliers then non_outliers
    else (values.zip non_outliers).map (fun p => if p.1 = 0 then true else p.2)

/-- The summary fields set by `Coverage.process_c` (lines 503-519).  `std`
is omitted: it is the only irrational-valued field and no claim mentions
it. -/
structure CoverageStats where
  min : Int
  max : Int
  median : ℚ
  mean : ℚ
  detection : ℚ
  is_outlier : List Bool
  mean_Q2Q3 : ℚ
deriving DecidableEq, Repr

/-- `Coverage.process_c` (lines 503-519).  `detection = np.sum(c > 0) /
len(c)`; `Q = int(c.size * 0.25)` is exactly `c.size / 4` in integer division
because `0.25` is a power of two, so `size * 0.25` is exact in floating
point and `int` truncates it; `sorted_c[Q:-Q]` keeps indices `Q` to
`size - Q` (here `Q ≥ 1` since `size ≥ 4`). -/
def Coverage.process_c (c : List Int) : CoverageStats :=
  let cq : List ℚ := c.map (fun x => (x : ℚ))
  let median := npMedian cq
  let mean := npMean cq
  ⟨(c.min?).getD 0,
   (c.max?).getD 0,
   median,
   mean,
   ((c.filter (fun x => decide (0 < x))).length : ℚ) / (c.length : ℚ),
   get_list_of_outliers cq none false (some median),
   if c.length < 4 then mean
   else
     let sorted_c := pySorted cq
     let Q := c.length / 4
     npMean ((sorted_c.drop Q).take (sorted_c.length - 2 * Q))⟩

/-- Spec-side phrasing for `mean_Q2Q3`: from the sorted array remove the `k`
lowest values (a front `drop`) and the `k` highest values (a back
truncation), `k = ⌊0.25 · length⌋`. -/
def removeLowHigh (s : List ℚ) (k : Nat) : List ℚ :=
  (s.drop k).take ((s.drop k).length - k)

/-- The read of the `Read.__getitem__` docstring (lines 157-180): 100
aligned bases, `reference_start = 4500`, `reference_end = 4600`. -/
def readDocExample : Read :=
  ⟨[(0, 100)], List.replicate 100 65, List.replicate 100 65, 4500, 4600⟩

/-- The spec's `GetBlocks` scenario: operations `[(MATCH,3),(INSERT,2),
(MATCH,4)]` spanning reference `10..17` (9 query bases, 7 reference
bases). -/
def readInsertion : Read :=
  ⟨[(0, 3), (1, 2), (0, 4)], [65, 65, 65, 67, 67, 71, 71, 71, 71],
   [65, 65, 65, 71, 71, 71, 71], 10, 17⟩

/-- A consistent read with a 2-base soft clip before a 5-base match:
cigar `[(S,2),(M,5)]`, 7 query bases, 5 reference bases, span
`[100, 105)`. -/
def readSoftClip : Read :=
  ⟨[(4, 2), (0, 5)], [78, 78, 65, 67, 71, 84, 65], [65, 67, 71, 84, 65], 100, 105⟩

/-- A consistent read ending in a deletion: cigar `[(M,4),(D,2)]`, 4 query
bases, 6 reference bases, span `[100, 106)`. -/
def readTrailDel : Read :=
  ⟨[(0, 4), (2, 2)], [65, 67, 71, 84], [65, 67, 71, 84, 67, 71], 100, 106⟩

/-- A consistent read with an interior deletion: cigar `[(M,3),(D,2),(M,4)]`,
7 query bases, 9 reference bases, span `[10, 19)`. -/
def readMDM : Read :=
  ⟨[(0, 3), (2, 2), (0, 4)], [65, 67, 71, 84, 65, 67, 71],
   [65, 67, 71, 84, 65, 67, 71, 84, 65], 10, 19⟩

/-- The spec's concrete depth array `[0,0,5,5,5,5,0]`. -/
def exDepth : List Int := [0, 0, 5, 5, 5, 5, 0]

/-- A 1-D value array with nonzero MAD whose first element is zero and close
to the median: median 0, deviations `[0,1,1,50,50]`, MAD 1. -/
def exValues : List ℚ := [0, 1, -1, 50, -50]

/-- All cigar rows of a read consume both query and reference (an
indel-free, clip-free alignment). -/
def allOpsConsumeBoth (ops : List (Nat × Nat)) : Prop :=
  ∀ p ∈ ops, opConsumesBoth p = true

/-- Spec-side description of what a left trim should do to an indel-free
operation list: remove `a` reference positions run-length-wise from the
front, deleting exhausted rows and truncating the boundary row. -/
def dropOps : List (Nat × Nat) → Nat → List (Nat × Nat)
  | [], _ => []
  | (op, len) :: rest, a =>
    if a = 0 then (op, len) :: rest
    else if a < len then (op, len - a) :: rest
    else dropOps rest (a - len)

/-- A consistent indel-free read with two adjacent match rows: cigar
`[(M,3),(M,4)]`, 7 query bases, 7 reference bases, span `[0, 7)`. -/
def readTwoMatch : Read :=
  ⟨[(0, 3), (0, 4)], [65, 67, 71, 84, 65, 67, 71],
   [65, 67, 71, 84, 65, 67, 71], 0, 7⟩

/-- Claim C1: `Read.__getitem__` on the read of its own docstring (span
`[4500, 4600)`): the documented clamping examples `read[4400:4700]` (claim
and docstring: clamp to `[4500, 4600)`) and a fully-outside request
`read[4700:4800]` (claim: zero-length alignment) both raise `ConfigError`
instead, because `trim` is called with a negative or excessive amount; an
in-range request works as documented. -/
theorem c1_getitem_raises_instead_of_clamping :
    isConfigError (readDocExample.getitem (.slice (some 4400) (some 4700) none)) = true ∧
    isConfigError (readDocExample.getitem (.slice (some 4700) (some 4800) none)) = true ∧
    (readDocExample.getitem (.slice (some 4550) (some 4575) none)).toOption.map
      (fun r => (r.reference_start, r.reference_end)) = some (4550, 4575) := by
  refine ⟨by decide, by decide, by decide⟩

/-- Claim C2 (counterexample): on operations `[(MATCH,3),(INSERT,2),
(MATCH,4)]` with `reference_start = 10`, `get_blocks` does not return the
single block `[(10,17)]` claimed by the spec. -/
theorem c2_counterexample_single_block :
    readInsertion.get_blocks ≠ [(10, 17)] := by decide

/-- Claim C2 (amended): `get_blocks` on that read returns the two adjacent
blocks `[(10,13),(13,17)]` — a query-only operation flushes the current
block and starts the next one at the same reference coordinate, so an
insertion produces a block boundary but no reference gap (exactly pysam's
`get_blocks` behaviour, which the method docstring says it mimics). -/
theorem c2_insertion_yields_adjacent_blocks :
    readInsertion.get_blocks = [(10, 13), (13, 17)] := by decide

/-- Claim C5: `Read.trim` breaks the cross-array length invariant.  The
consistent read `[(M,4),(D,2)]` (4 query bases, 6 reference bases) trimmed
by 2 from the right succeeds, absorbs the whole trailing deletion
(`read_positions_trimmed = 0`), and then `query_sequence[:-0]` wipes the
entire query array: the surviving cigar `[(M,4)]` expects 4 query bases but
`query_sequence` is empty. -/
theorem c5_right_trim_breaks_query_invariant :
    readTrailDel.consistent = true ∧
    isTrimErr (readTrailDel.trimE 2 .right) = false ∧
    (readTrailDel.trimState 2 .right).cigartuples = [(0, 4)] ∧
    (readTrailDel.trimState 2 .right).reference_sequence.length = 4 ∧
    (readTrailDel.trimState 2 .right).query_sequence = [] ∧
    (readTrailDel.trimState 2 .right).consistent = false := by
  refine ⟨by decide, by decide, by decide, by decide, by decide, by decide⟩

/-- Claim C7 (counterexample): on the consistent read `[(M,3),(D,2),(M,4)]`
spanning `[10,19)`, a left trim by 3 absorbs the dangling deletion (removing
5 reference positions), so trimming by 3 and then by 1 ends at
`reference_start = 16`, while a single trim by 4 ends at
`reference_start = 15`: the two results differ. -/
theorem c7_counterexample_deletion_absorption :
    readMDM.consistent = true ∧
    ((readMDM.trimE 3 .left).bind (fun r1 => r1.trimE 1 .left)).toOption.map
      Read.reference_start = some 16 ∧
    (readMDM.trimE 4 .left).toOption.map Read.reference_start = some 15 := by
  refine ⟨by decide, by decide, by decide⟩

/-- Claim C10: `Read.__getitem__` raises `ValueError` exactly for keys that
are not basic slices (non-slice keys, or slices with a non-`None` step); the
check precedes the deep copy and both trims, and for a basic slice any
failure surfaces as a `ConfigError` from `trim`, never a `ValueError`.  The
embedding is a pure function of `r`: the original read is returned
untouched in all cases (Python works on a `deepcopy`). -/
theorem c10_getitem_valueerror_iff_nonbasic_key (r : Read) (key : PyKey) :
    isValueError (r.getitem key) = !key.isBasicSlice := by
  cases key with
  | nonSlice => rfl
  | slice kstart kstop kstep =>
    cases kstep with
    | some v => rfl
    | none =>
      have hstep : ¬ ((none : Option Int) ≠ none) := fun h => h rfl
      simp only [Read.getitem, PyKey.isBasicSlice, Bool.not_true]
      rw [if_neg hstep]
      split
      · rfl
      · split
        · rfl
        · rfl

/-- Claim C6: for any read with a non-negative reference span, `Read.trim`
raises (`ConfigError`, the spec's `InvalidTrim`) exactly when the amount is
negative or exceeds the span `reference_end - reference_start`; both checks
happen before any field is assigned, so on failure the instance is
unchanged. -/
theorem c6_trim_rejects_invalid_amounts (r : Read) (a : Int) (side : Side)
    (hspan : 0 ≤ r.reference_end - r.reference_start) :
    (isTrimErr (r.trimE a side) = true ↔
      (a < 0 ∨ r.reference_end - r.reference_start < a)) ∧
    ((a < 0 ∨ r.reference_end - r.reference_start < a) → r.trimState a side = r) := by
  by_cases h0 : a = 0
  · subst h0
    have hok : r.trimE 0 side = .ok r := by simp [Read.trimE]
    refine ⟨?_, ?_⟩
    · rw [hok]
      simp only [isTrimErr]
      constructor
      · intro h; exact absurd h (by simp)
      · intro h; omega
    · intro h; omega
  · by_cases hneg : a < 0
    · have herr : r.trimE a side =
          .error "Read.trim :: Requesting to trim an amount which is negative." := by
        simp [Read.trimE, h0, hneg]
      refine ⟨?_, ?_⟩
      · rw [herr]; simp only [isTrimErr]
        exact ⟨fun _ => Or.inl hneg, fun _ => trivial⟩
      · intro _; simp [Read.trimState, herr]
    · by_cases hex : r.reference_end - r.reference_start < a
      · have herr : r.trimE a side =
            .error "Read.trim :: Requesting to trim an amount that exceeds the alignment range." := by
          simp only [Read.trimE, if_neg h0, if_neg hneg]
          rw [if_pos (by omega)]
        refine ⟨?_, ?_⟩
        · rw [herr]; simp only [isTrimErr]
          exact ⟨fun _ => Or.inr hex, fun _ => trivial⟩
        · intro _; simp [Read.trimState, herr]
      · have hok : isTrimErr (r.trimE a side) = false := by
          simp only [Read.trimE, if_neg h0, if_neg hneg, if_neg (by omega : ¬ a > r.reference_end - r.reference_start)]
          split
          · cases side <;> rfl
          · rfl
        refine ⟨?_, ?_⟩
        · rw [hok]
          constructor
          · intro h; exact absurd h (by simp)
          · intro h; omega
        · intro h; omega

/-- Witness for C6 at a concrete input: trimming `readDocExample` by `-5`
fails and leaves the instance unchanged. -/
theorem c6_trim_rejects_invalid_amounts_witness :
    0 ≤ readDocExample.reference_end - readDocExample.reference_start ∧
    isTrimErr (readDocExample.trimE (-5) .left) = true ∧
    readDocExample.trimState (-5) .left = readDocExample := by
  have h := c6_trim_rejects_invalid_amounts readDocExample (-5) Side.left (by decide)
  exact ⟨by decide, h.1.mpr (Or.inl (by decide)), h.2 (Or.inl (by decide))⟩

/-- The cigar walk of `_trim` never leaves a row that consumes only one axis
at the head of the surviving row list: it only stops by exhausting the rows,
or at a row that consumes both query and reference (kept whole on
`terminate_next`, or truncated). -/
theorem trimWalk_ops_head_consumes_both (ops : List (Nat × Nat)) (t : Int) :
    ∀ (refT readT : Int) (term : Bool) (p : Nat × Nat),
      (trimWalk ops t refT readT term).ops.head? = some p →
        opConsumesBoth p = true := by
  induction ops with
  | nil =>
    intro refT readT term p hp
    simp [trimWalk] at hp
  | cons q rest ih =>
    obtain ⟨op, len⟩ := q
    intro refT readT term p hp
    simp only [trimWalk] at hp
    split at hp
    · split at hp
      · rename_i hb _
        simp only [List.head?_cons, Option.some.injEq] at hp
        subst hp
        simpa [opConsumesBoth] using hb
      · split at hp
        · rename_i hb _ _
          simp only [List.head?_cons, Option.some.injEq] at hp
          subst hp
          simpa [opConsumesBoth] using hb
        · exact ih _ _ _ _ hp
    · split at hp
      · exact ih _ _ _ _ hp
      · split at hp
        · exact ih _ _ _ _ hp
        · exact ih _ _ _ _ hp

/-- Claim C4 (amended): a successful `Read.trim` through the general path
(two or more cigar rows) leaves, at the trimmed end, either no rows at all or
a row that consumes both query and reference; the opposite, untrimmed end is
not inspected, and the single-row fast path subtracts from its row without
looking at its kind. -/
theorem c4_trimmed_end_boundary_consumes_both (r : Read) (a : Int) (side : Side)
    (hlen : 2 ≤ r.cigartuples.length) (h0 : 0 < a)
    (hspan : a ≤ r.reference_end - r.reference_start) :
    ∃ r', r.trimE a side = .ok r' ∧
      ∀ p, boundaryOp side r'.cigartuples = some p → opConsumesBoth p = true := by
  have h0' : ¬ a = 0 := by omega
  have hneg : ¬ a < 0 := by omega
  have hex : ¬ a > r.reference_end - r.reference_start := by omega
  rcases hc : r.cigartuples with _ | ⟨p1, tl⟩
  · rw [hc] at hlen; simp at hlen
  rcases tl with _ | ⟨p2, tl2⟩
  · rw [hc] at hlen; simp at hlen
  cases side with
  | left =>
    have ht : r.trimE a .left = .ok
        ⟨(trimWalk (p1 :: p2 :: tl2) a 0 0 false).ops,
         r.query_sequence.drop (trimWalk (p1 :: p2 :: tl2) a 0 0 false).readTrimmed.toNat,
         r.reference_sequence.drop (trimWalk (p1 :: p2 :: tl2) a 0 0 false).refTrimmed.toNat,
         r.reference_start + (trimWalk (p1 :: p2 :: tl2) a 0 0 false).refTrimmed,
         r.reference_end⟩ := by
      simp only [Read.trimE, if_neg h0', if_neg hneg, if_neg hex, hc, pyTrim]
      rfl
    refine ⟨_, ht, ?_⟩
    intro p hp
    simp only [boundaryOp] at hp
    exact trimWalk_ops_head_consumes_both _ _ _ _ _ _ hp
  | right =>
    have ht : r.trimE a .right = .ok
        ⟨(trimWalk (p1 :: p2 :: tl2).reverse a 0 0 false).ops.reverse,
         pySliceUpToNeg r.query_sequence (trimWalk (p1 :: p2 :: tl2).reverse a 0 0 false).readTrimmed,
         pySliceUpToNeg r.reference_sequence (trimWalk (p1 :: p2 :: tl2).reverse a 0 0 false).refTrimmed,
         r.reference_start,
         r.reference_end - (trimWalk (p1 :: p2 :: tl2).reverse a 0 0 false).refTrimmed⟩ := by
      simp only [Read.trimE, if_neg h0', if_neg hneg, if_neg hex, hc, pyTrim]
      rfl
    refine ⟨_, ht, ?_⟩
    intro p hp
    simp only [boundaryOp] at hp
    rw [List.getLast?_reverse] at hp
    exact trimWalk_ops_head_consumes_both _ _ _ _ _ _ hp

/-- Witness for C4 at a concrete input: right-trimming the soft-clipped read
`[(S,2),(M,5)]` by 1 succeeds and its trimmed (right) end is a
both-consuming row. -/
theorem c4_trimmed_end_boundary_consumes_both_witness :
    2 ≤ readSoftClip.cigartuples.length ∧
    ∃ r', readSoftClip.trimE 1 .right = .ok r' ∧
      ∀ p, boundaryOp .right r'.cigartuples = some p → opConsumesBoth p = true := by
  exact ⟨by decide,
    c4_trimmed_end_boundary_consumes_both readSoftClip 1 .right (by decide) (by decide) (by decide)⟩

/-- Claim C4 (counterexample): right-trimming the consistent soft-clipped
read `[(S,2),(M,5)]` by 1 succeeds but the resulting read still begins with
the soft clip `(S,2)`, an operation consuming only the query, and is not
empty — the original claim about both ends fails. -/
theorem c4_counterexample_leading_soft_clip :
    readSoftClip.consistent = true ∧
    (readSoftClip.trimState 1 .right).cigartuples = [(4, 2), (0, 4)] ∧
    ((readSoftClip.trimState 1 .right).cigartuples.head?.map opConsumesBoth) = some false := by
  refine ⟨by decide, by decide, by decide⟩

/-- Dropping zero reference positions leaves the operation list unchanged. -/
theorem dropOps_zero (l : List (Nat × Nat)) : dropOps l 0 = l := by
  cases l with
  | nil => rfl
  | cons p rest =>
    obtain ⟨op, len⟩ := p
    simp [dropOps]

/-- Run-length drops compose additively. -/
theorem dropOps_dropOps (l : List (Nat × Nat)) :
    ∀ a b : Nat, dropOps (dropOps l a) b = dropOps l (a + b) := by
  induction l with
  | nil => intro a b; simp [dropOps]
  | cons p rest ih =>
    obtain ⟨op, len⟩ := p
    intro a b
    by_cases ha : a = 0
    · subst ha
      rw [dropOps_zero, Nat.zero_add]
    · by_cases hlt : a < len
      · rw [show dropOps ((op, len) :: rest) a = (op, len - a) :: rest from by
          simp only [dropOps]; rw [if_neg ha, if_pos hlt]]
        by_cases hb : b = 0
        · subst hb
          rw [dropOps_zero, Nat.add_zero]
          simp only [dropOps]
          rw [if_neg ha, if_pos hlt]
        · by_cases hb2 : b < len - a
          · simp only [dropOps]
            rw [if_neg hb, if_pos hb2, if_neg (by omega : ¬ a + b = 0),
              if_pos (by omega : a + b < len)]
            have : len - a - b = len - (a + b) := by omega
            rw [this]
          · simp only [dropOps]
            rw [if_neg hb, if_neg hb2, if_neg (by omega : ¬ a + b = 0),
              if_neg (by omega : ¬ a + b < len)]
            have : b - (len - a) = a + b - len := by omega
            rw [this]
      · rw [show dropOps ((op, len) :: rest) a = dropOps rest (a - len) from by
          simp only [dropOps]; rw [if_neg ha, if_neg hlt]]
        rw [ih]
        rw [show dropOps ((op, len) :: rest) (a + b) = dropOps rest (a + b - len) from by
          simp only [dropOps]
          rw [if_neg (by omega : ¬ a + b = 0), if_neg (by omega : ¬ a + b < len)]]
        have : a - len + b = a + b - len := by omega
        rw [this]

/-- A run-length drop of an indel-free operation list is indel-free. -/
theorem allOpsConsumeBoth_dropOps (l : List (Nat × Nat)) :
    ∀ a : Nat, allOpsConsumeBoth l → allOpsConsumeBoth (dropOps l a) := by
  induction l with
  | nil => intro a _; intro p hp; simp [dropOps] at hp
  | cons q rest ih =>
    obtain ⟨op, len⟩ := q
    intro a hall
    have hhead : opConsumesBoth (op, len) = true := hall _ (List.mem_cons_self _ _)
    have hrest : allOpsConsumeBoth rest := fun p hp => hall p (List.mem_cons_of_mem _ hp)
    by_cases ha : a = 0
    · subst ha; rw [dropOps_zero]; exact hall
    · by_cases hlt : a < len
      · rw [show dropOps ((op, len) :: rest) a = (op, len - a) :: rest from by
          simp only [dropOps]; rw [if_neg ha, if_pos hlt]]
        intro p hp
        rcases List.mem_cons.mp hp with h | h
        · subst h; simpa [opConsumesBoth] using hhead
        · exact hrest _ h
      · rw [show dropOps ((op, len) :: rest) a = dropOps rest (a - len) from by
          simp only [dropOps]; rw [if_neg ha, if_neg hlt]]
        exact ih _ hrest

/-- Reference-consuming length of a cons whose head consumes the
reference. -/
theorem sumRefLengths_cons_both (op len : Nat) (rest : List (Nat × Nat))
    (h : (cigar_consumption op).2 = true) :
    sumRefLengths ((op, len) :: rest) = len + sumRefLengths rest := by
  simp [sumRefLengths, List.filter_cons, h]

/-- A run-length drop removes exactly the dropped amount from the
reference-consuming length on an indel-free list. -/
theorem sumRefLengths_dropOps (l : List (Nat × Nat)) :
    ∀ a : Nat, allOpsConsumeBoth l → a ≤ sumRefLengths l →
      sumRefLengths (dropOps l a) = sumRefLengths l - a := by
  induction l with
  | nil =>
    intro a _ hle
    simp only [dropOps, sumRefLengths, List.filter_nil, List.foldr_nil]
    omega
  | cons q rest ih =>
    obtain ⟨op, len⟩ := q
    intro a hall hle
    have hhead : opConsumesBoth (op, len) = true := hall _ (List.mem_cons_self _ _)
    have hb2 : (cigar_consumption op).2 = true := by
      simp only [opConsumesBoth, Bool.and_eq_true] at hhead
      exact hhead.2
    have hrest : allOpsConsumeBoth rest := fun p hp => hall p (List.mem_cons_of_mem _ hp)
    rw [sumRefLengths_cons_both _ _ _ hb2] at hle ⊢
    by_cases ha : a = 0
    · subst ha; rw [dropOps_zero, sumRefLengths_cons_both _ _ _ hb2]; omega
    · by_cases hlt : a < len
      · rw [show dropOps ((op, len) :: rest) a = (op, len - a) :: rest from by
          simp only [dropOps]; rw [if_neg ha, if_pos hlt]]
        rw [sumRefLengths_cons_both _ _ _ hb2]
        omega
      · rw [show dropOps ((op, len) :: rest) a = dropOps rest (a - len) from by
          simp only [dropOps]; rw [if_neg ha, if_neg hlt]]
        rw [ih _ hrest (by omega)]
        omega

/-- Once `terminate_next` is set, the walk stops at the next row of an
indel-free list, keeping everything. -/
theorem trimWalk_terminate_of_allBoth (ops : List (Nat × Nat)) (t a b : Int)
    (h : allOpsConsumeBoth ops) :
    trimWalk ops t a b true = ⟨ops, a, b⟩ := by
  cases ops with
  | nil => rfl
  | cons q rest =>
    obtain ⟨op, len⟩ := q
    have hb : ((cigar_consumption op).1 && (cigar_consumption op).2) = true := by
      simpa [opConsumesBoth] using h _ (List.mem_cons_self _ _)
    simp only [trimWalk]
    rw [if_pos hb]
    simp

/-- On an indel-free operation list, the `_trim` walk started below the
budget trims exactly up to the budget and its surviving rows are the
run-length drop of the requested amount. -/
theorem trimWalk_allBoth_eq (ops : List (Nat × Nat)) :
    ∀ t c : Int, allOpsConsumeBoth ops → c < t →
      t - c ≤ (sumRefLengths ops : Int) →
      trimWalk ops t c c false = ⟨dropOps ops (t - c).toNat, t, t⟩ := by
  induction ops with
  | nil =>
    intro t c _ hct hsum
    simp only [sumRefLengths, List.filter_nil, List.foldr_nil] at hsum
    omega
  | cons q rest ih =>
    obtain ⟨op, len⟩ := q
    intro t c hall hct hsum
    have hb : ((cigar_consumption op).1 && (cigar_consumption op).2) = true := by
      simpa [opConsumesBoth] using hall _ (List.mem_cons_self _ _)
    have hb2 : (cigar_consumption op).2 = true := by
      simp only [Bool.and_eq_true] at hb
      exact hb.2
    have hrest : allOpsConsumeBoth rest := fun p hp => hall p (List.mem_cons_of_mem _ hp)
    rw [sumRefLengths_cons_both _ _ _ hb2] at hsum
    simp only [trimWalk]
    rw [if_pos hb, if_neg (by simp : ¬ (false = true))]
    by_cases hlen : (len : Int) > t - c
    · rw [if_pos hlen]
      have h1 : ¬ (t - c).toNat = 0 := by omega
      have h2 : (t - c).toNat < len := by omega
      simp only [dropOps]
      rw [if_neg h1, if_pos h2]
      have e1 : ((len : Int) - (t - c)).toNat = len - (t - c).toNat := by omega
      have e2 : c + (t - c) = t := by omega
      rw [e1, e2]
    · rw [if_neg hlen]
      by_cases hterm : c + (len : Int) ≥ t
      · have hle : c + (len : Int) = t := by omega
        rw [show (false || decide (c + (len : Int) ≥ t)) = true from by simp [hterm]]
        rw [hle, trimWalk_terminate_of_allBoth rest t t t hrest]
        have h1 : ¬ (t - c).toNat = 0 := by omega
        have h2 : ¬ (t - c).toNat < len := by omega
        simp only [dropOps]
        rw [if_neg h1, if_neg h2]
        rw [show (t - c).toNat - len = 0 from by omega, dropOps_zero]
      · rw [show (false || decide (c + (len : Int) ≥ t)) = false from by simp; omega]
        rw [ih t (c + len) hrest (by omega) (by omega)]
        have h1 : ¬ (t - c).toNat = 0 := by omega
        have h2 : ¬ (t - c).toNat < len := by omega
        simp only [dropOps]
        rw [if_neg h1, if_neg h2]
        rw [show (t - c).toNat - len = (t - (c + (len : Int))).toNat from by omega]

/-- On a consistent indel-free read, a left trim strictly inside the span
succeeds and acts as the run-length drop on the rows, a front `drop` on both
base arrays, and a shift of `reference_start` — through the fast path
(single row) and the general `_trim` path alike. -/
theorem trimE_left_allBoth (r : Read) (a : Int)
    (hall : allOpsConsumeBoth r.cigartuples)
    (hspan : r.reference_end - r.reference_start = (sumRefLengths r.cigartuples : Int))
    (h0 : 0 ≤ a) (hlt : a < r.reference_end - r.reference_start) :
    r.trimE a .left = .ok ⟨dropOps r.cigartuples a.toNat,
      r.query_sequence.drop a.toNat, r.reference_sequence.drop a.toNat,
      r.reference_start + a, r.reference_end⟩ := by
  by_cases ha0 : a = 0
  · subst ha0
    have hok : r.trimE 0 .left = .ok r := by simp [Read.trimE]
    rw [hok]
    cases r with
    | mk c q rs s e =>
      simp [dropOps_zero]
  · have hneg : ¬ a < 0 := by omega
    have hex : ¬ a > r.reference_end - r.reference_start := by omega
    rcases hc : r.cigartuples with _ | ⟨⟨op1, len1⟩, tl⟩
    · rw [hc] at hspan
      simp only [sumRefLengths, List.filter_nil, List.foldr_nil] at hspan
      omega
    · rcases tl with _ | ⟨p2, tl2⟩
      · have hb2 : (cigar_consumption op1).2 = true := by
          have := hall _ (by rw [hc]; exact List.mem_cons_self _ _)
          simp only [opConsumesBoth, Bool.and_eq_true] at this
          exact this.2
        have hlen1 : r.reference_end - r.reference_start = (len1 : Int) := by
          rw [hc, sumRefLengths_cons_both _ _ _ hb2] at hspan
          simp only [sumRefLengths, List.filter_nil, List.foldr_nil] at hspan
          omega
        simp only [Read.trimE, if_neg ha0, if_neg hneg, if_neg hex, hc]
        have e1 : ((len1 : Int) - a).toNat = len1 - a.toNat := by omega
        have e2 : dropOps [(op1, len1)] a.toNat = [(op1, len1 - a.toNat)] := by
          simp only [dropOps]
          rw [if_neg (by omega : ¬ a.toNat = 0), if_pos (by omega : a.toNat < len1)]
        rw [e1, e2]
      · have hall' : allOpsConsumeBoth ((op1, len1) :: p2 :: tl2) := by
          rw [hc] at hall; exact hall
        have hsum' : a - 0 ≤ (sumRefLengths ((op1, len1) :: p2 :: tl2) : Int) := by
          rw [hc] at hspan; omega
        have hwalk := trimWalk_allBoth_eq ((op1, len1) :: p2 :: tl2) a 0 hall' (by omega) hsum'
        rw [show a - (0 : Int) = a from by omega] at hwalk
        simp only [Read.trimE, if_neg ha0, if_neg hneg, if_neg hex, hc, pyTrim,
          if_neg (by decide : ¬ (0 : Nat) = 1), hwalk]

/-- Claim C7 (amended): on a consistent read whose operations all consume
both query and reference (no insertions, deletions, skips or clips), left
trims are additive: trimming by `a` and then by `b` equals a single trim by
`a + b`, whenever `a, b ≥ 0` and `a + b` stays strictly inside the reference
span.  (With a reference-only or query-only operation at a cut boundary the
dangling-operation absorption makes trims non-additive, and a full-span trim
can differ in representation between the fast and general paths.) -/
theorem c7_left_trims_additive_without_indels (r : Read) (a b : Int)
    (hall : allOpsConsumeBoth r.cigartuples)
    (hspan : r.reference_end - r.reference_start = (sumRefLengths r.cigartuples : Int))
    (ha : 0 ≤ a) (hb : 0 ≤ b)
    (hab : a + b < r.reference_end - r.reference_start) :
    (r.trimE a .left).bind (fun r1 => r1.trimE b .left) = r.trimE (a + b) .left := by
  have hsum_a : a.toNat ≤ sumRefLengths r.cigartuples := by omega
  have h1 := trimE_left_allBoth r a hall hspan ha (by omega)
  have hall1 : allOpsConsumeBoth (dropOps r.cigartuples a.toNat) :=
    allOpsConsumeBoth_dropOps _ _ hall
  have hsumdrop : sumRefLengths (dropOps r.cigartuples a.toNat) =
      sumRefLengths r.cigartuples - a.toNat :=
    sumRefLengths_dropOps _ _ hall hsum_a
  have h2 := trimE_left_allBoth
    ⟨dropOps r.cigartuples a.toNat,
     r.query_sequence.drop a.toNat, r.reference_sequence.drop a.toNat,
     r.reference_start + a, r.reference_end⟩ b hall1
    (by
      show r.reference_end - (r.reference_start + a) =
        (sumRefLengths (dropOps r.cigartuples a.toNat) : Int)
      rw [hsumdrop]; omega)
    hb
    (by show b < r.reference_end - (r.reference_start + a); omega)
  have h3 := trimE_left_allBoth r (a + b) hall hspan (by omega) hab
  rw [h1, h3]
  simp only [Except.bind]
  rw [h2]
  have e1 : a.toNat + b.toNat = (a + b).toNat := by omega
  simp only [Except.ok.injEq, Read.mk.injEq, dropOps_dropOps, List.drop_drop, e1]
  exact ⟨trivial, trivial, trivial, by omega, trivial⟩

/-- Witness for C7 at a concrete input: on the indel-free two-row read,
trimming left by 2 and then by 3 equals a single left trim by 5. -/
theorem c7_left_trims_additive_without_indels_witness :
    allOpsConsumeBoth readTwoMatch.cigartuples ∧
    readTwoMatch.reference_end - readTwoMatch.reference_start =
      (sumRefLengths readTwoMatch.cigartuples : Int) ∧
    (readTwoMatch.trimE 2 .left).bind (fun r1 => r1.trimE 3 .left) =
      readTwoMatch.trimE 5 .left := by
  have hall : allOpsConsumeBoth readTwoMatch.cigartuples := by
    simp [allOpsConsumeBoth, readTwoMatch, opConsumesBoth, cigar_consumption]
  refine ⟨hall, by decide, ?_⟩
  exact c7_left_trims_additive_without_indels readTwoMatch 2 3 hall (by decide)
    (by decide) (by decide) (by decide)

/-- `getD` on a replicated list inside bounds. -/
theorem getD_replicate (n : Nat) (v d : ℚ) :
    ∀ i : Nat, i < n → (List.replicate n v).getD i d = v := by
  induction n with
  | zero => intro i hi; omega
  | succ m ih =>
    intro i hi
    cases i with
    | zero => rfl
    | succ j =>
      rw [List.replicate_succ]
      simpa using ih j (by omega)

/-- Inserting the replicated value into a replicated list extends it. -/
theorem insertSorted_replicate (n : Nat) (v : ℚ) :
    insertSorted v (List.replicate n v) = List.replicate (n + 1) v := by
  cases n with
  | zero => rfl
  | succ m =>
    rw [List.replicate_succ]
    simp [insertSorted, List.replicate_succ]

/-- A constant list is already sorted. -/
theorem pySorted_replicate (n : Nat) (v : ℚ) :
    pySorted (List.replicate n v) = List.replicate n v := by
  induction n with
  | zero => rfl
  | succ m ih =>
    rw [List.replicate_succ]
    show insertSorted v (pySorted (List.replicate m v)) = _
    rw [ih, insertSorted_replicate, List.replicate_succ]

/-- The median of a nonempty constant list is its value. -/
theorem npMedian_replicate (n : Nat) (v : ℚ) (hn : 1 ≤ n) :
    npMedian (List.replicate n v) = v := by
  simp only [npMedian, pySorted_replicate, List.length_replicate]
  rw [if_neg (by omega)]
  by_cases hodd : n % 2 = 1
  · rw [if_pos hodd, getD_replicate _ _ _ _ (by omega)]
  · rw [if_neg hodd, getD_replicate _ _ _ _ (by omega), getD_replicate _ _ _ _ (by omega)]
    ring

/-- Claim C9: `get_list_of_outliers` on a nonempty constant array hits the
degenerate `MAD = 0` branch: for a non-zero constant value and
`zeros_are_outliers = false` the mask is all-`false`, and for the all-zero
array it is all-`true`. -/
theorem c9_uniform_arrays (n : Nat) (v : ℚ) (hn : 1 ≤ n) :
    (v ≠ 0 → get_list_of_outliers (List.replicate n v) none false none =
      List.replicate n false) ∧
    get_list_of_outliers (List.replicate n 0) none false none =
      List.replicate n true := by
  have key : ∀ w : ℚ, get_list_of_outliers (List.replicate n w) none false none =
      (if w = 0 then List.replicate n true else List.replicate n false) := by
    intro w
    simp only [get_list_of_outliers]
    rw [npMedian_replicate n w hn, List.map_replicate]
    simp only [sub_self, abs_zero]
    rw [npMedian_replicate n 0 hn, if_pos rfl]
    obtain ⟨m, rfl⟩ : ∃ m, n = m + 1 := ⟨n - 1, by omega⟩
    rw [List.replicate_succ]
    simp only [List.headD_cons, List.length_cons, List.length_replicate]
  refine ⟨fun hv => ?_, ?_⟩
  · rw [key v, if_neg hv]
  · rw [key 0, if_pos rfl]

/-- Witness for C9 at concrete inputs: the constant arrays `[7,7,7]` and
`[0,0,0]`. -/
theorem c9_uniform_arrays_witness :
    get_list_of_outliers (List.replicate 3 (7 : ℚ)) none false none =
      List.replicate 3 false ∧
    get_list_of_outliers (List.replicate 3 (0 : ℚ)) none false none =
      List.replicate 3 true := by
  exact ⟨(c9_uniform_arrays 3 7 (by norm_num)).1 (by norm_num),
    (c9_uniform_arrays 3 0 (by norm_num)).2⟩

/-- Pointwise form of the `zeros_are_outliers` rewrite loop: writing `True`
at the zero positions of a mask computed positionally from the values. -/
theorem zip_mask_eq_map (l : List ℚ) (g : ℚ → Bool) :
    (l.zip (l.map g)).map (fun p => if p.1 = 0 then true else p.2) =
      l.map (fun v => g v || decide (v = 0)) := by
  induction l with
  | nil => rfl
  | cons x xs ih =>
    simp only [List.map_cons, List.zip_cons_cons, ih]
    congr 1
    by_cases hx : x = 0 <;> simp [hx]

/-- Claim C3 (amended): when the MAD is nonzero, the mask returned by
`get_list_of_outliers` is `True` exactly where the modified z-score
`0.6745 * |v - median| / MAD` exceeds the threshold (default `1.5`) — i.e.
`True` marks values far from the median, the conventional outlier polarity
stated by the function's docstring — and `zeros_are_outliers` forces every
exact-zero position to `True` (outlier), not to non-outlier. -/
theorem c3_amended_outlier_mask_polarity (values : List ℚ) (flag : Bool)
    (hmad : npMedian (values.map (fun v => |v - npMedian values|)) ≠ 0) :
    get_list_of_outliers values none flag none =
      values.map (fun v =>
        decide ((6745 : ℚ) / 10000 * |v - npMedian values| /
            npMedian (values.map (fun u => |u - npMedian values|)) > 3 / 2) ||
          (flag && decide (v = 0))) := by
  simp only [get_list_of_outliers]
  rw [if_neg hmad]
  cases flag with
  | false =>
    simp only [Bool.not_false, if_true, List.map_map, Bool.false_and, Bool.or_false]
    rfl
  | true =>
    simp only [Bool.not_true, Bool.false_eq_true, if_false, List.map_map, Bool.true_and]
    rw [zip_mask_eq_map]
    rfl

/-- Claim C3 (counterexample): on `[0, 1, -1, 50, -50]` (median 0, MAD 1,
threshold 1.5) the returned mask is `[false,false,false,true,true]`: the
value `0` sits exactly at the median (modified z-score `0`), yet its mask
entry is `false` — so the mask is not `True` for values close to the median;
and with `zeros_are_outliers` set, the zero position is forced to `true`,
not treated as a non-outlier. -/
theorem c3_counterexample_mask_polarity :
    npMedian exValues = 0 ∧
    npMedian (exValues.map (fun v => |v - npMedian exValues|)) = 1 ∧
    get_list_of_outliers exValues none false none = [false, false, false, true, true] ∧
    get_list_of_outliers exValues none true none = [true, false, false, true, true] := by
  refine ⟨?_, ?_, ?_, ?_⟩ <;>
    norm_num [exValues, get_list_of_outliers, npMedian, pySorted, insertSorted,
      abs, max_def]

/-- Witness for C3 at a concrete input: `[1, 2, 3, 4, 100]` has median 3 and
MAD 1, and the mask equals the pointwise modified-z-score comparison. -/
theorem c3_amended_outlier_mask_polarity_witness :
    npMedian (([1, 2, 3, 4, 100] : List ℚ).map
      (fun v => |v - npMedian [1, 2, 3, 4, 100]|)) ≠ 0 ∧
    get_list_of_outliers [1, 2, 3, 4, 100] none false none =
      ([1, 2, 3, 4, 100] : List ℚ).map (fun v =>
        decide ((6745 : ℚ) / 10000 * |v - npMedian [1, 2, 3, 4, 100]| /
            npMedian (([1, 2, 3, 4, 100] : List ℚ).map
              (fun u => |u - npMedian [1, 2, 3, 4, 100]|)) > 3 / 2) ||
          (false && decide (v = 0))) := by
  have hmad : npMedian (([1, 2, 3, 4, 100] : List ℚ).map
      (fun v => |v - npMedian [1, 2, 3, 4, 100]|)) ≠ 0 := by
    norm_num [npMedian, pySorted, insertSorted, abs, max_def]
  exact ⟨hmad, c3_amended_outlier_mask_polarity [1, 2, 3, 4, 100] false hmad⟩

/-- Claim C8: for depth arrays of length at least 4, `mean_Q2Q3` is the mean
of the sorted array with the lowest `⌊0.25·length⌋` and the highest
`⌊0.25·length⌋` values removed; for shorter arrays it is the plain mean; on
the spec's array `[0,0,5,5,5,5,0]`, `detection = 4/7`, the drop count is
exactly 1 per end, and `mean_Q2Q3 = mean [0,0,5,5,5] = 3`. -/
theorem c8_mean_q2q3_trimmed_mean :
    (∀ c : List Int, 4 ≤ c.length →
      (Coverage.process_c c).mean_Q2Q3 =
        npMean (removeLowHigh (pySorted (c.map (fun x => (x : ℚ)))) (c.length / 4))) ∧
    (∀ c : List Int, c.length < 4 →
      (Coverage.process_c c).mean_Q2Q3 = (Coverage.process_c c).mean) ∧
    (Coverage.process_c exDepth).detection = 4 / 7 ∧
    exDepth.length / 4 = 1 ∧
    (Coverage.process_c exDepth).mean_Q2Q3 = 3 := by
  refine ⟨?_, ?_, ?_, by decide, ?_⟩
  · intro c hc
    simp only [Coverage.process_c]
    rw [if_neg (by omega)]
    simp only [removeLowHigh, List.length_drop]
    congr 2
    omega
  · intro c hc
    simp only [Coverage.process_c]
    rw [if_pos hc]
  · norm_num [Coverage.process_c, exDepth, List.filter]
  · norm_num [Coverage.process_c, exDepth, npMean, pySorted, insertSorted]

/-- Witness for C8 at concrete inputs: the length-7 spec array for the
general clause and `[1,2,3]` for the short-array clause. -/
theorem c8_mean_q2q3_trimmed_mean_witness :
    4 ≤ exDepth.length ∧
    (Coverage.process_c exDepth).mean_Q2Q3 =
      npMean (removeLowHigh (pySorted (exDepth.map (fun x => (x : ℚ))))
        (exDepth.length / 4)) ∧
    ([1, 2, 3] : List Int).length < 4 ∧
    (Coverage.process_c [1, 2, 3]).mean_Q2Q3 = (Coverage.process_c [1, 2, 3]).mean := by
  exact ⟨by decide, c8_mean_q2q3_trimmed_mean.1 exDepth (by decide),
    by decide, c8_mean_q2q3_trimmed_mean.2.1 [1, 2, 3] (by decide)⟩
